import Mathlib

/-!
Verification of the GRIDSS/PURPLE/LINX execution harness
(`deployment/assets/run_gpl.py` and its `util` helpers).

The Python source is shallowly embedded: text is modelled as `List Char`
(Python `str`), the gzip library and the ICA folder-listing service are
modelled as function parameters (they are external collaborators, not code
of this repository), and every fatal `sys.exit(1)` is modelled as an
explicit error value.  Each definition is named after the Python function
it embeds.
-/

namespace RunGpl

/-! ## Text utilities

Python iterates a (decompressed) file object line by line, keeping the
trailing newline on every line except possibly the last (`keepends`
semantics).  `splitKeepEnds` reproduces that: the decoded buffer is cut
after every newline character, a trailing fragment without a newline is
kept as a final (partial) line, and no empty line is ever produced. -/

def splitKeepEnds : List Char → List (List Char)
  | [] => []
  | c :: cs =>
    if c = '\n' then ['\n'] :: splitKeepEnds cs
    else
      match splitKeepEnds cs with
      | [] => [[c]]
      | l :: ls => (c :: l) :: ls

/-- Prepending a non-newline character to a buffer extends its first line
(or starts one). -/
def extendLine (c : Char) : List (List Char) → List (List Char)
  | [] => [[c]]
  | l :: ls => (c :: l) :: ls

/-! ## `get_vcf_header` (run_gpl.py lines 191-230)

The reader accumulates raw compressed chunks in `data_raw`, re-decompresses
the whole accumulation after every chunk (`decompress_gzip_chunks`), and
scans the decoded lines.  The gzip library is an external collaborator and
is modelled by a parameter `dec : List Char → Option (List Char)` mapping
the accumulated raw bytes to the decoded text, with `none` standing for
`gzip.BadGzipFile` (the `continue` branch).  A fatal `sys.exit(1)` becomes
an explicit error value. -/

inductive VcfReadError where
  /-- `Reached EOF ... without finding header line` (line 198). -/
  | eofBeforeHeader : VcfReadError
  /-- `Moved past header ... without finding header line` (line 208). -/
  | malformedHeader : VcfReadError
deriving DecidableEq, Repr

def chromMarker : List Char := ['#', 'C', 'H', 'R', 'O', 'M']

/-- The inner `for i, line in enumerate(data_lines)` loop (lines 206-212):
a line not starting with `#` aborts; a line starting with `#CHROM` returns
`data_lines[: i + 1]`; falling off the end leaves `header` empty
(`.ok none`), so the outer loop reads another chunk. -/
def scanHeaderLines : List (List Char) → Except Unit (Option (List (List Char)))
  | [] => .ok none
  | l :: ls =>
    if ¬ (['#'].isPrefixOf l) then .error ()
    else if chromMarker.isPrefixOf l then .ok (some [l])
    else
      match scanHeaderLines ls with
      | .error e => .error e
      | .ok none => .ok none
      | .ok (some h) => .ok (some (l :: h))

/-- The outer `while not header` loop (lines 192-213), recursing over the
remaining chunks of `file_chunk_iter` with the accumulated `data_raw`. -/
def get_vcf_header (dec : List Char → Option (List Char)) :
    List (List Char) → List Char → Except VcfReadError (List (List Char))
  | [], _ => .error .eofBeforeHeader
  | c :: cs, dataRaw =>
    let acc := dataRaw ++ c
    match dec acc with
    | none => get_vcf_header dec cs acc
    | some text =>
      match scanHeaderLines (splitKeepEnds text) with
      | .error _ => .error .malformedHeader
      | .ok (some h) => .ok h
      | .ok none => get_vcf_header dec cs acc

/-- Reference result: what the scan yields on the fully decoded text. -/
def headerOfText (text : List Char) : Except VcfReadError (List (List Char)) :=
  match scanHeaderLines (splitKeepEnds text) with
  | .error _ => .error .malformedHeader
  | .ok (some h) => .ok h
  | .ok none => .error .eofBeforeHeader

/-- A well-formed comment line: starts with `#` but is not the
column-definition line. -/
def goodComment (l : List Char) : Prop :=
  ['#'].isPrefixOf l = true ∧ chromMarker.isPrefixOf l = false

/-! ### Truncated decodes

A decoded buffer is always a byte prefix of the fully decoded text, so its
line list agrees with the full line list except that its last line may be
cut short.  `LinePrefix` captures exactly this shape. -/

inductive LinePrefix : List (List Char) → List (List Char) → Prop where
  | nil (ys : List (List Char)) : LinePrefix [] ys
  | last (x y : List Char) (ys : List (List Char)) :
      x ≠ [] → x <+: y → LinePrefix [x] (y :: ys)
  | cons (x : List Char) (xs ys : List (List Char)) :
      LinePrefix xs ys → LinePrefix (x :: xs) (x :: ys)

/-- In a line list with a non-comment line before any column-definition
line, the bad line is hit before any header can be assembled from a
truncation of that list. -/
def BadBeforeChrom (ys : List (List Char)) : Prop :=
  ∃ pre bad rest, ys = pre ++ bad :: rest ∧
    (∀ l ∈ pre, chromMarker.isPrefixOf l = false) ∧ ['#'].isPrefixOf bad = false

/-! ## Sample-name validation (run_gpl.py lines 233-312)

Names and messages are modelled as `String`.  The Python messages quote
file names with `'...'`; those quote characters are omitted here, the
discriminating content (counts, the `<none found>` marker, the joined name
lists and their separators) is kept verbatim. -/

/-- Python `str.rstrip()` (strip trailing whitespace). -/
def pyRstrip (s : List Char) : List Char :=
  (s.reverse.dropWhile Char.isWhitespace).reverse

/-- Python `str.split('\t')`: split on every tab, keeping empty fields
(splitting the empty string yields one empty field). -/
def pySplitTabAux : List Char → List Char → List String
  | [], acc => [⟨acc.reverse⟩]
  | c :: cs, acc =>
    if c = '\t' then ⟨acc.reverse⟩ :: pySplitTabAux cs []
    else pySplitTabAux cs (c :: acc)

def pySplitTab (s : List Char) : List String :=
  pySplitTabAux s []

/-- `get_samples_from_vcf_header` (lines 284-294): take the last header
line, strip trailing whitespace, split on tabs, drop the 9 fixed VCF
columns.  (Python raises on an empty header; callers always pass the
non-empty result of `get_vcf_header`, so the empty case is defaulted.) -/
def get_samples_from_vcf_header (vcf_header : List String) : List String :=
  let header_line := vcf_header.getLastD ""
  (pySplitTab (pyRstrip header_line.data)).drop 9

/-- The `for sample_name_type, sample_name_input in sample_names_input`
loop (lines 245-250): names found in the VCF are only logged, missing ones
are recorded as `<type>: <name>`. -/
def collectMissing : List (String × String) → List String → List String
  | [], _ => []
  | (ty, name) :: rest, vcfNames =>
    if name ∈ vcfNames then collectMissing rest vcfNames
    else (ty ++ ": " ++ name) :: collectMissing rest vcfNames

structure SampleNameCheckResult where
  /-- `sample_name_missing` at the end of the loop. -/
  missing : List String
  /-- `sample_name_errors` (cardinality mismatch messages). -/
  cardinalityErrors : List String
  /-- `sample_names_vcf_str` as rendered inside the missing-names report
  (`none` when no missing-names report is emitted). -/
  observedRendered : Option String
  /-- Whether the function reaches `sys.exit(1)` (line 281). -/
  exitsWithError : Bool
deriving DecidableEq, Repr

/-- Body of `check_vcf_sample_names` (lines 242-281) after the sample
names have been extracted from the header. -/
def check_vcf_sample_names_core (sample_names_input : List (String × String))
    (vcf_fp : String) (sample_names_vcf : List String) : SampleNameCheckResult :=
  let missing := collectMissing sample_names_input sample_names_vcf
  let countMsg := "expected " ++ toString sample_names_input.length ++ " sample names in "
    ++ vcf_fp ++ ", got " ++ toString sample_names_vcf.length
  let errors :=
    if sample_names_vcf.length ≠ sample_names_input.length then
      if sample_names_vcf.length = 0 then [countMsg]
      else [countMsg ++ ":\n\t" ++ String.intercalate "\n\t" sample_names_vcf]
    else []
  let observedRendered :=
    if missing.isEmpty then none
    else some (if sample_names_vcf.length = 0 then "<none found>"
               else String.intercalate "\n\t\t" sample_names_vcf)
  { missing := missing
    cardinalityErrors := errors
    observedRendered := observedRendered
    exitsWithError := !errors.isEmpty || !missing.isEmpty }

def check_vcf_sample_names (sample_names_input : List (String × String))
    (vcf_fp : String) (vcf_header : List String) : SampleNameCheckResult :=
  check_vcf_sample_names_core sample_names_input vcf_fp
    (get_samples_from_vcf_header vcf_header)

/-- `check_vcf_ad_field` (lines 297-312): the `for ... else` loop passes
iff some header line starts with the FORMAT/AD declaration; otherwise the
function exits fatally (modelled as `false`). -/
def check_vcf_ad_field (vcf_header : List String) : Bool :=
  vcf_header.any (fun line => "##FORMAT=<ID=AD,".data.isPrefixOf line.data)

/-! ## The validation phase of `main` (run_gpl.py lines 77-86) -/

inductive VcfKind where
  | smlv : VcfKind
  | sv : VcfKind
deriving DecidableEq, Repr

inductive ValidationStep where
  | readHeader (kind : VcfKind) : ValidationStep
  | checkAdField (kind : VcfKind) : ValidationStep
  | checkSampleNames (kind : VcfKind) : ValidationStep
deriving DecidableEq, Repr

/-- The sequence of validation calls `main` performs, as a function of
which optional VCF arguments were supplied: the small-variant VCF gets
`get_vcf_header`, `check_vcf_ad_field`, `check_vcf_sample_names`; the
structural-variant VCF gets `get_vcf_header`, `check_vcf_sample_names`
only. -/
def main_validation_steps (haveSmlvVcf haveSvVcf : Bool) : List ValidationStep :=
  (if haveSmlvVcf then
    [.readHeader .smlv, .checkAdField .smlv, .checkSampleNames .smlv] else []) ++
  (if haveSvVcf then [.readHeader .sv, .checkSampleNames .sv] else [])

/-! ## GDS ancestor-credential resolution (run_gpl.py lines 388-456)

The ICA folder-listing service (`folders_api.list_folders`) is an external
collaborator, modelled as a predicate `existsDir` on rendered absolute
directory paths (always given a trailing slash, as the code ensures at
lines 440-442).  Directories are represented as their path segments stored
innermost-first, so that `pathlib.Path.parent` is `List.tail`; `[]` is the
root `/`. -/

def renderDirFromRoot (segs : List String) : String :=
  if segs.isEmpty then "/" else "/" ++ String.intercalate "/" segs ++ "/"

/-- The `while True` walk of `get_aws_credentials_for_gds_file` (lines
439-451): look the directory up; on a hit stop there; at the root with no
hit fail (`sys.exit(1)` at line 449); otherwise retry with the parent. -/
def ancestorWalk (existsDir : String → Bool) : List String → Option (List String)
  | [] => if existsDir "/" then some [] else none
  | s :: rest =>
    if existsDir (renderDirFromRoot ((s :: rest).reverse)) then some (s :: rest)
    else ancestorWalk existsDir rest

/-- `get_aws_credentials_for_gds_file` up to the point where credentials
are requested: the path of a file target is replaced by its parent
directory (lines 428-433), then the walk runs.  Returns the root-first
segments of the directory for which credentials are issued. -/
def get_aws_credentials_folder (existsDir : String → Bool) (keySegs : List String)
    (endsWithSlash : Bool) : Option (List String) :=
  let start := if endsWithSlash then keySegs else keySegs.dropLast
  (ancestorWalk existsDir start.reverse).map List.reverse

/-- Character class of the regex `[0-9a-z-]` (line 403). -/
def isUuidChar (c : Char) : Bool :=
  ('0' ≤ c && c ≤ '9') || ('a' ≤ c && c ≤ 'z') || c == '-'

/-- `re.match(r'^[0-9a-z-]+/?(.*)$', aws_cred_prefix)` and its group 1
(lines 403-406): strip one leading run of uuid characters and at most one
following slash; no match (`none`) when the prefix does not start with a
uuid character. -/
def stripCredUuid (credPrefix : List Char) : Option (List Char) :=
  let u := credPrefix.takeWhile isUuidChar
  if u.isEmpty then none
  else
    match credPrefix.drop u.length with
    | '/' :: r => some r
    | r => some r

/-- `get_full_aws_key_prefix_for_gds_path` (lines 388-414).  The second
regex `fr'^{prefix_shared}(.*)$'` is modelled as a literal prefix match,
which is its meaning whenever the shared prefix contains no regex
metacharacters (as for ordinary GDS paths). -/
def get_full_aws_key_prefix_for_gds_path (gdsKey credPrefix : List Char) :
    Option (List Char) :=
  match stripCredUuid credPrefix with
  | none => none
  | some shared =>
    if shared.isPrefixOf gdsKey then some (credPrefix ++ gdsKey.drop shared.length)
    else none

/-! ## Upload execution flow (run_gpl.py lines 459-482 and 607-658)

`execute_command` runs a transfer and, for a non-zero return code without
`ignore_errors`, terminates the whole process with `sys.exit(1)` — modelled
as `Except.error 1`.  The per-item return codes of the underlying `aws s3`
commands are environment inputs. -/

def execute_command (ignore_errors : Bool) (returncode : Int) : Except Nat Int :=
  if returncode ≠ 0 then
    if ignore_errors then .ok returncode else .error 1
  else .ok returncode

/-- The `for path in OUTPUT_LOCAL_DIR.iterdir()` upload loop of
`upload_data_outputs` (lines 619-630), generalized over the ordered upload
items (name, transfer return code).  Every item is dispatched through
`execute_command` with its default `ignore_errors=False`.  Returns the
names attempted before the process died (first component) and either the
process exit or the final `tasks_failed` list (second component). -/
def upload_items_run : List (String × Int) → List String × Except Nat (List String)
  | [] => ([], .ok [])
  | (name, rc) :: rest =>
    match execute_command false rc with
    | .error code => ([name], .error code)
    | .ok res =>
      let (attempted, out) := upload_items_run rest
      (name :: attempted,
        match out with
        | .error code => .error code
        | .ok failed => .ok (if res ≠ 0 then ("upload of " ++ name) :: failed else failed))

/-- `upload_data_outputs` control flow: run all items, then the final
aggregation check (lines 654-658) exits with code 1 when `tasks_failed` is
non-empty. -/
def upload_data_outputs_flow (items : List (String × Int)) : Except Nat Unit :=
  match (upload_items_run items).2 with
  | .error code => .error code
  | .ok failed => if failed.isEmpty then .ok () else .error 1

/-! ## Destination-path construction and the upload operations
(run_gpl.py lines 37-61 and 607-658) -/

/-- Left-to-right, non-overlapping replacement scan, bounded by a fuel that
only ever needs to cover the length of the string (each step consumes at
least one character). -/
def pyReplaceFuel (pat rep : List Char) : Nat → List Char → List Char
  | 0, s => s
  | _ + 1, [] => []
  | fuel + 1, c :: cs =>
    if pat ≠ [] ∧ pat.isPrefixOf (c :: cs) then
      rep ++ pyReplaceFuel pat rep fuel ((c :: cs).drop pat.length)
    else c :: pyReplaceFuel pat rep fuel cs

/-- Python `str.replace(pat, rep)`: replace every (left-to-right,
non-overlapping) occurrence.  (Python's behaviour for an empty pattern is
irrelevant here — the code only ever replaces the non-empty string
`'output'` — so an empty pattern is treated as matching nowhere.) -/
def pyReplace (pat rep s : List Char) : List Char :=
  pyReplaceFuel pat rep s.length s

/-- Python `str.lstrip('/')`: drop every leading slash. -/
def pyLstripSlash (s : List Char) : List Char :=
  s.dropWhile (fun c => c == '/')

/-- `args.output_dir = args.output_dir if args.output_dir.endswith('/')
else f'{args.output_dir}/'` (line 60). -/
def normalize_output_dir (s : List Char) : List Char :=
  if s.getLast? = some '/' then s else s ++ ['/']

/-- `aws s3` `--exclude` filter matching (the transfer tool is an external
collaborator): `*` matches any run of characters, every other pattern
character matches itself. -/
def globMatch : List Char → List Char → Bool
  | [], s => s.isEmpty
  | p :: ps, s =>
    if p = '*' then s.tails.any (fun suffix => globMatch ps suffix)
    else
      match s with
      | [] => false
      | c :: cs => p == c && globMatch ps cs

/-- String form of the module path constants (lines 22-29): `pathlib`
normalizes `Path('.') / 'output/'` to `output`, etc. -/
def OUTPUT_LOCAL_DIR : String := "output"

def NEXTFLOW_DIR : String := "output/nextflow"

def WORK_DIR : String := "output/nextflow/work"

/-- The `--exclude` pattern of line 636.  The Python source is the plain
(non-f) string literal `'sync --exclude=\'*{WORK_DIR.name}/*\''`, so the
pattern contains the fourteen literal characters `{WORK_DIR.name}` rather
than the directory name `work`. -/
def workExcludePattern : String := "*\x7bWORK_DIR.name\x7d/*"

def nextflowSyncCmd : String := "sync --exclude=\x27" ++ workExcludePattern ++ "\x27"

/-- `s3_output_subdir = str(path).replace(str(OUTPUT_LOCAL_DIR), '').lstrip('/')`
(lines 626, 634, 646). -/
def s3_output_subdir (path : String) : String :=
  ⟨pyLstripSlash (pyReplace OUTPUT_LOCAL_DIR.data [] path.data)⟩

/-- One remote-store operation issued through
`execute_object_store_operation`: the `aws s3` sub-command string (with any
flags), source, destination. -/
structure StoreOp where
  cmd : String
  src : String
  dst : String
deriving DecidableEq, Repr

/-- The child-upload loop of `upload_data_outputs` (lines 619-630) as the
sequence of store operations it issues.  `children` are the entries of
`OUTPUT_LOCAL_DIR.iterdir()` as (basename, is_dir); the accumulator is the
current value of the `aws_s3_cmd` variable (`none` = not yet assigned). -/
def uploadChildrenOps (output_dir : String) :
    List (String × Bool) → Option String → List StoreOp × Option String
  | [], st => ([], st)
  | (name, isDir) :: rest, st =>
    if OUTPUT_LOCAL_DIR ++ "/" ++ name = NEXTFLOW_DIR then
      uploadChildrenOps output_dir rest st
    else
      let path := OUTPUT_LOCAL_DIR ++ "/" ++ name
      let cmd := if isDir then "sync" else "cp"
      let op : StoreOp := { cmd := cmd, src := path, dst := output_dir ++ s3_output_subdir path }
      let (ops, st') := uploadChildrenOps output_dir rest (some cmd)
      (op :: ops, st')

/-- The full sequence of store operations issued by `upload_data_outputs`
(lines 607-652): ordinary children, then the Nextflow directory (when it
exists) with the `--exclude` flag of line 636, then — when
`upload_nf_cache` is set and the work directory exists — the final cache
upload of line 648, whose source argument is `NEXTFLOW_DIR` and whose
command is whatever `aws_s3_cmd` last held (`none` = Python `NameError`
when that variable was never assigned). -/
def upload_data_outputs_ops (children : List (String × Bool))
    (nextflow_exists work_exists upload_nf_cache : Bool) (output_dir : String) :
    Option (List StoreOp) :=
  let (childOps, st0) := uploadChildrenOps output_dir children none
  let nfOp : StoreOp :=
    { cmd := nextflowSyncCmd, src := NEXTFLOW_DIR,
      dst := output_dir ++ s3_output_subdir NEXTFLOW_DIR }
  let nfOps : List StoreOp := if nextflow_exists then [nfOp] else []
  let st1 : Option String := if nextflow_exists then some nextflowSyncCmd else st0
  if upload_nf_cache && work_exists then
    match st1 with
    | none => none
    | some cmd =>
      let cacheOp : StoreOp :=
        { cmd := cmd, src := NEXTFLOW_DIR, dst := output_dir ++ s3_output_subdir WORK_DIR }
      some (childOps ++ nfOps ++ [cacheOp])
  else some (childOps ++ nfOps)

/-! ## The tail of `main` (run_gpl.py lines 133-139) -/

structure MainEpilogue where
  /-- Whether `upload_data_outputs` is invoked at all. -/
  publishAttempted : Bool
  /-- The `upload_nf_cache` argument passed to it (`false` when it is not
  invoked). -/
  publishIncludeCache : Bool
  /-- `some 1` when `sys.exit(1)` is reached. -/
  exitCode : Option Nat
deriving DecidableEq, Repr

/-- `process.wait()` has returned: `if process.returncode != 0:` log and
`sys.exit(1)`; `else:` `upload_data_outputs(args.output_dir,
args.upload_nf_cache)`. -/
def main_check_and_upload (returncode : Int) (upload_nf_cache : Bool) : MainEpilogue :=
  if returncode ≠ 0 then
    { publishAttempted := false, publishIncludeCache := false, exitCode := some 1 }
  else
    { publishAttempted := true, publishIncludeCache := upload_nf_cache, exitCode := none }

/-! ## Theorems -/

theorem splitKeepEnds_cons_newline (cs : List Char) :
    splitKeepEnds ('\n' :: cs) = ['\n'] :: splitKeepEnds cs := rfl

theorem splitKeepEnds_cons_of_ne {c : Char} (hc : c ≠ '\n') (cs : List Char) :
    splitKeepEnds (c :: cs) = extendLine c (splitKeepEnds cs) := by
  cases h : splitKeepEnds cs <;> simp [splitKeepEnds, hc, extendLine, h]

theorem splitKeepEnds_eq_nil_iff (s : List Char) : splitKeepEnds s = [] ↔ s = [] := by
  cases s with
  | nil => simp [splitKeepEnds]
  | cons c cs =>
    simp only [iff_false_intro (List.cons_ne_nil c cs), iff_false]
    by_cases hc : c = '\n'
    · subst hc; rw [splitKeepEnds_cons_newline]; simp
    · rw [splitKeepEnds_cons_of_ne hc]
      cases hs : splitKeepEnds cs with
      | nil => simp [extendLine]
      | cons l ls => simp [extendLine]

/-- Splitting distributes over append as long as the first part ends in a
newline (every line of the first part is complete). -/
theorem splitKeepEnds_append (a b : List Char) (ha : a.getLast? = some '\n') :
    splitKeepEnds (a ++ b) = splitKeepEnds a ++ splitKeepEnds b := by
  induction a with
  | nil => simp at ha
  | cons c cs ih =>
    cases cs with
    | nil =>
      simp only [List.getLast?_singleton, Option.some.injEq] at ha
      subst ha
      simp [splitKeepEnds_cons_newline, splitKeepEnds]
    | cons d ds =>
      have hlast : (d :: ds).getLast? = some '\n' := by
        rw [List.getLast?_cons_cons] at ha; exact ha
      have ih' := ih hlast
      by_cases hc : c = '\n'
      · subst hc
        rw [List.cons_append, splitKeepEnds_cons_newline, splitKeepEnds_cons_newline, ih',
          List.cons_append]
      · have hnil : splitKeepEnds (d :: ds) ≠ [] := by
          rw [ne_eq, splitKeepEnds_eq_nil_iff]; simp
        rw [List.cons_append, splitKeepEnds_cons_of_ne hc, splitKeepEnds_cons_of_ne hc, ih']
        cases hs : splitKeepEnds (d :: ds) with
        | nil => exact absurd hs hnil
        | cons l ls => simp [extendLine]

/-! ### Scan lemmas -/

theorem scanHeaderLines_all_goodComment (ls : List (List Char))
    (h : ∀ l ∈ ls, goodComment l) : scanHeaderLines ls = .ok none := by
  induction ls with
  | nil => rfl
  | cons l ls ih =>
    obtain ⟨h1, h2⟩ := h l (by simp)
    have ih' := ih (fun x hx => h x (by simp [hx]))
    simp [scanHeaderLines, h1, h2, ih']

theorem scanHeaderLines_cons_good {l : List Char} (h1 : ['#'].isPrefixOf l = true)
    (h2 : chromMarker.isPrefixOf l = false) (ls : List (List Char)) :
    scanHeaderLines (l :: ls) =
      match scanHeaderLines ls with
      | .error e => .error e
      | .ok none => .ok none
      | .ok (some h) => .ok (some (l :: h)) := by
  simp [scanHeaderLines, h1, h2]

/-- Scanning an appended line list: an early error or an early success is
preserved, and a clean pass over the first part prepends its lines to
whatever the second part yields. -/
theorem scanHeaderLines_append (xs ys : List (List Char)) :
    scanHeaderLines (xs ++ ys) =
      match scanHeaderLines xs with
      | .error e => .error e
      | .ok (some h) => .ok (some h)
      | .ok none =>
        match scanHeaderLines ys with
        | .error e => .error e
        | .ok none => .ok none
        | .ok (some h) => .ok (some (xs ++ h)) := by
  induction xs with
  | nil =>
    simp only [List.nil_append, scanHeaderLines]
    cases scanHeaderLines ys with
    | error e => rfl
    | ok o => cases o <;> rfl
  | cons l ls ih =>
    by_cases h1 : ['#'].isPrefixOf l
    · by_cases h2 : chromMarker.isPrefixOf l
      · simp [scanHeaderLines, h1, h2]
      · have h2' : chromMarker.isPrefixOf l = false := Bool.eq_false_iff.mpr h2
        rw [List.cons_append, scanHeaderLines_cons_good h1 h2',
          scanHeaderLines_cons_good h1 h2', ih]
        cases hx : scanHeaderLines ls with
        | error e => rfl
        | ok o =>
          cases o with
          | some h => rfl
          | none =>
            cases hy : scanHeaderLines ys with
            | error e => rfl
            | ok o' => cases o' <;> rfl
    · have h1' : ¬ ['#'].isPrefixOf l = true := h1
      simp [scanHeaderLines, h1']

theorem LinePrefix.extend {a b : List (List Char)} (c : Char) (h : LinePrefix a b) :
    LinePrefix (extendLine c a) (extendLine c b) := by
  unfold extendLine
  cases h with
  | nil ys =>
    cases b with
    | nil => exact .cons [c] [] [] (.nil [])
    | cons y ys => exact .last [c] (c :: y) ys (by simp) ⟨y, rfl⟩
  | last x y ys hx hp =>
    exact .last (c :: x) (c :: y) ys (by simp) (List.cons_prefix_cons.mpr ⟨rfl, hp⟩)
  | cons x xs ys h => exact .cons (c :: x) xs ys h

/-- Cutting the decoded text anywhere truncates its line list in the
`LinePrefix` sense. -/
theorem linePrefix_splitKeepEnds_take (s : List Char) (k : Nat) :
    LinePrefix (splitKeepEnds (s.take k)) (splitKeepEnds s) := by
  induction s generalizing k with
  | nil => simpa [splitKeepEnds] using LinePrefix.nil []
  | cons c cs ih =>
    cases k with
    | zero => simpa [splitKeepEnds] using LinePrefix.nil _
    | succ j =>
      rw [List.take_succ_cons]
      by_cases hc : c = '\n'
      · subst hc
        rw [splitKeepEnds_cons_newline, splitKeepEnds_cons_newline]
        exact .cons _ _ _ (ih j)
      · rw [splitKeepEnds_cons_of_ne hc, splitKeepEnds_cons_of_ne hc]
        exact LinePrefix.extend c (ih j)

theorem scanHeaderLines_of_linePrefix {xs ys : List (List Char)}
    (hlp : LinePrefix xs ys) (hbad : BadBeforeChrom ys) :
    scanHeaderLines xs = .error () ∨ scanHeaderLines xs = .ok none := by
  induction hlp with
  | nil ys => right; rfl
  | last x y ys hx hp =>
    obtain ⟨pre, bad, rest, heq, hpre, hb⟩ := hbad
    cases pre with
    | nil =>
      simp only [List.nil_append, List.cons.injEq] at heq
      by_cases hpx : ['#'].isPrefixOf x
      · exfalso
        have : ['#'] <+: bad :=
          (List.isPrefixOf_iff_prefix.mp hpx).trans (heq.1 ▸ hp)
        rw [← List.isPrefixOf_iff_prefix] at this
        simp [this] at hb
      · left
        have hpx' : ¬ ['#'].isPrefixOf x = true := hpx
        simp [scanHeaderLines, hpx']
    | cons p₀ pre' =>
      simp only [List.cons_append, List.cons.injEq] at heq
      by_cases hpx : ['#'].isPrefixOf x
      · have hcx : chromMarker.isPrefixOf x = false := by
          by_contra hcx
          have hcx' : chromMarker.isPrefixOf x = true := by
            exact Bool.not_eq_false _ ▸ (by simpa using hcx)
          have : chromMarker <+: p₀ :=
            (List.isPrefixOf_iff_prefix.mp hcx').trans (heq.1 ▸ hp)
          rw [← List.isPrefixOf_iff_prefix] at this
          have := hpre p₀ (by simp)
          simp_all
        right
        rw [scanHeaderLines_cons_good (by simpa using hpx) hcx]
        rfl
      · left
        have hpx' : ¬ ['#'].isPrefixOf x = true := hpx
        simp [scanHeaderLines, hpx']
  | cons x xs ys h ih =>
    obtain ⟨pre, bad, rest, heq, hpre, hb⟩ := hbad
    cases pre with
    | nil =>
      simp only [List.nil_append, List.cons.injEq] at heq
      left
      have hpx' : ¬ ['#'].isPrefixOf x = true := by rw [heq.1]; simp [hb]
      simp [scanHeaderLines, hpx']
    | cons p₀ pre' =>
      simp only [List.cons_append, List.cons.injEq] at heq
      have hbad' : BadBeforeChrom ys :=
        ⟨pre', bad, rest, heq.2, fun l hl => hpre l (by simp [hl]), hb⟩
      by_cases hpx : ['#'].isPrefixOf x
      · have hcx : chromMarker.isPrefixOf x = false := heq.1 ▸ hpre p₀ (by simp)
        rw [scanHeaderLines_cons_good (by simpa using hpx) hcx]
        rcases ih hbad' with h' | h' <;> [left; right] <;> rw [h']
      · left
        have hpx' : ¬ ['#'].isPrefixOf x = true := hpx
        simp [scanHeaderLines, hpx']

/-- Scanning the full line list hits the bad line and aborts, provided every
line before it is an ordinary comment line. -/
theorem scanHeaderLines_error_of_bad (pre : List (List Char)) (bad : List Char)
    (rest : List (List Char)) (hpre : ∀ l ∈ pre, goodComment l)
    (hb : ['#'].isPrefixOf bad = false) :
    scanHeaderLines (pre ++ bad :: rest) = .error () := by
  induction pre with
  | nil =>
    have hb' : ¬ ['#'].isPrefixOf bad = true := by simp [hb]
    simp [scanHeaderLines, hb']
  | cons l ls ih =>
    obtain ⟨h1, h2⟩ := hpre l (by simp)
    rw [List.cons_append, scanHeaderLines_cons_good h1 h2,
      ih (fun x hx => hpre x (by simp [hx]))]

/-! ### Loop theorems -/

theorem get_vcf_header_cons_none {dec : List Char → Option (List Char)} {c dataRaw : List Char}
    (cs : List (List Char)) (hdec : dec (dataRaw ++ c) = none) :
    get_vcf_header dec (c :: cs) dataRaw = get_vcf_header dec cs (dataRaw ++ c) := by
  rw [get_vcf_header, hdec]

theorem get_vcf_header_cons_some {dec : List Char → Option (List Char)} {c dataRaw t : List Char}
    (cs : List (List Char)) (hdec : dec (dataRaw ++ c) = some t) :
    get_vcf_header dec (c :: cs) dataRaw =
      match scanHeaderLines (splitKeepEnds t) with
      | .error _ => .error .malformedHeader
      | .ok (some h) => .ok h
      | .ok none => get_vcf_header dec cs (dataRaw ++ c) := by
  rw [get_vcf_header, hdec]

/-- If every chunk accumulation that decompresses at all decodes to pure
comment lines (no column-definition line anywhere), the loop consumes the
whole chunk stream and fails with the end-of-file error — including when
some accumulations fail to decompress (`dec` returns `none`). -/
theorem get_vcf_header_eof (dec : List Char → Option (List Char))
    (chunks : List (List Char)) (dataRaw : List Char)
    (h : ∀ k t, dec (dataRaw ++ ((chunks.take k).flatten)) = some t →
      ∀ l ∈ splitKeepEnds t, goodComment l) :
    get_vcf_header dec chunks dataRaw = .error .eofBeforeHeader := by
  induction chunks generalizing dataRaw with
  | nil => rfl
  | cons c cs ih =>
    have hstep : ∀ k t, dec ((dataRaw ++ c) ++ ((cs.take k).flatten)) = some t →
        ∀ l ∈ splitKeepEnds t, goodComment l := by
      intro k t ht
      refine h (k + 1) t ?_
      rwa [List.take_succ_cons, List.flatten_cons, ← List.append_assoc]
    cases hdec : dec (dataRaw ++ c) with
    | none => rw [get_vcf_header_cons_none cs hdec]; exact ih (dataRaw ++ c) hstep
    | some t =>
      have h1 : ∀ l ∈ splitKeepEnds t, goodComment l := h 1 t (by simpa using hdec)
      rw [get_vcf_header_cons_some cs hdec,
        scanHeaderLines_all_goodComment (splitKeepEnds t) h1]
      exact ih (dataRaw ++ c) hstep

/-- If the fully accumulated stream decodes to a text whose line list hits a
non-comment line before any column-definition line, and every partial decode
is a byte prefix of that text, the loop fails with the malformed-header
error — it can never assemble a header first. -/
theorem get_vcf_header_malformed (dec : List Char → Option (List Char))
    (chunks : List (List Char)) (dataRaw full : List Char)
    (hne : chunks ≠ [])
    (hfin : dec (dataRaw ++ chunks.flatten) = some full)
    (hpre : ∀ k t, dec (dataRaw ++ ((chunks.take k).flatten)) = some t → t <+: full)
    (hbad : ∃ pre bad rest, splitKeepEnds full = pre ++ bad :: rest ∧
      (∀ l ∈ pre, goodComment l) ∧ ['#'].isPrefixOf bad = false) :
    get_vcf_header dec chunks dataRaw = .error .malformedHeader := by
  induction chunks generalizing dataRaw with
  | nil => exact absurd rfl hne
  | cons c cs ih =>
    obtain ⟨pre, bad, rest, heq, hgood, hb⟩ := hbad
    have hbadfull : BadBeforeChrom (splitKeepEnds full) :=
      ⟨pre, bad, rest, heq, fun l hl => (hgood l hl).2, hb⟩
    have hscanfull : scanHeaderLines (splitKeepEnds full) = .error () := by
      rw [heq]; exact scanHeaderLines_error_of_bad pre bad rest hgood hb
    cases cs with
    | nil =>
      have hfin' : dec (dataRaw ++ c) = some full := by
        simpa using hfin
      rw [get_vcf_header_cons_some [] hfin', hscanfull]
    | cons c' cs' =>
      have hstep : ∀ k t, dec ((dataRaw ++ c) ++ ((c' :: cs').take k).flatten) = some t →
          t <+: full := by
        intro k t ht
        refine hpre (k + 1) t ?_
        rwa [List.take_succ_cons, List.flatten_cons, ← List.append_assoc]
      have hfin' : dec ((dataRaw ++ c) ++ (c' :: cs').flatten) = some full := by
        rwa [List.flatten_cons, ← List.append_assoc] at hfin
      cases hdec : dec (dataRaw ++ c) with
      | none =>
        rw [get_vcf_header_cons_none _ hdec]
        exact ih (dataRaw ++ c) (by simp) hfin' hstep
      | some t =>
        have ht : t <+: full := hpre 1 t (by simpa using hdec)
        have hlp : LinePrefix (splitKeepEnds t) (splitKeepEnds full) := by
          have := linePrefix_splitKeepEnds_take full t.length
          rwa [← List.prefix_iff_eq_take.mp ht] at this
        rw [get_vcf_header_cons_some _ hdec]
        rcases scanHeaderLines_of_linePrefix hlp hbadfull with hsc | hsc
        · rw [hsc]
        · rw [hsc]
          exact ih (dataRaw ++ c) (by simp) hfin' hstep

/-- If every intermediate decode yields a newline-terminated (or empty) byte
prefix of the full text and the final accumulation decodes to the full text,
the loop's verdict is exactly `headerOfText full` — it depends only on the
decoded text, not on where the chunk boundaries fall. -/
theorem get_vcf_header_of_aligned (dec : List Char → Option (List Char))
    (chunks : List (List Char)) (dataRaw full : List Char)
    (hne : chunks ≠ [])
    (hfin : dec (dataRaw ++ chunks.flatten) = some full)
    (hint : ∀ k, 0 < k → k < chunks.length →
      ∀ t, dec (dataRaw ++ ((chunks.take k).flatten)) = some t →
        t <+: full ∧ (t = [] ∨ t.getLast? = some '\n')) :
    get_vcf_header dec chunks dataRaw = headerOfText full := by
  induction chunks generalizing dataRaw with
  | nil => exact absurd rfl hne
  | cons c cs ih =>
    cases cs with
    | nil =>
      have hfin' : dec (dataRaw ++ c) = some full := by
        simpa using hfin
      rw [get_vcf_header_cons_some [] hfin', headerOfText]
      cases scanHeaderLines (splitKeepEnds full) with
      | error e => rfl
      | ok o => cases o <;> rfl
    | cons c' cs' =>
      have hstep : ∀ k, 0 < k → k < (c' :: cs').length →
          ∀ t, dec ((dataRaw ++ c) ++ ((c' :: cs').take k).flatten) = some t →
            t <+: full ∧ (t = [] ∨ t.getLast? = some '\n') := by
        intro k hk hk' t ht
        refine hint (k + 1) (by omega) (by simpa using Nat.succ_lt_succ hk') t ?_
        rwa [List.take_succ_cons, List.flatten_cons, ← List.append_assoc]
      have hfin' : dec ((dataRaw ++ c) ++ (c' :: cs').flatten) = some full := by
        rwa [List.flatten_cons, ← List.append_assoc] at hfin
      cases hdec : dec (dataRaw ++ c) with
      | none =>
        rw [get_vcf_header_cons_none _ hdec]
        exact ih (dataRaw ++ c) (by simp) hfin' hstep
      | some t =>
        obtain ⟨ht, htnl⟩ := hint 1 (by omega) (by simp) t (by simpa using hdec)
        obtain ⟨r, hr⟩ := ht
        have hsplit : splitKeepEnds full = splitKeepEnds t ++ splitKeepEnds r := by
          rcases htnl with h0 | hnl
          · subst h0; simp [splitKeepEnds, hr.symm]
          · rw [← hr]; exact splitKeepEnds_append t r hnl
        have happ := scanHeaderLines_append (splitKeepEnds t) (splitKeepEnds r)
        rw [← hsplit] at happ
        rw [get_vcf_header_cons_some _ hdec]
        cases hsc : scanHeaderLines (splitKeepEnds t) with
        | error e =>
          rw [hsc] at happ
          rw [headerOfText, happ]
        | ok o =>
          cases o with
          | some h =>
            rw [hsc] at happ
            rw [headerOfText, happ]
          | none =>
            exact ih (dataRaw ++ c) (by simp) hfin' hstep

/-! ### Replacement-scan lemmas (for claim C9) -/

theorem pyReplaceFuel_of_not_infix (pat rep : List Char) (fuel : Nat) (s : List Char)
    (h : ¬ pat <:+: s) : pyReplaceFuel pat rep fuel s = s := by
  induction fuel generalizing s with
  | zero => rfl
  | succ fuel ih =>
    cases s with
    | nil => rfl
    | cons c cs =>
      have hcond : ¬ (pat ≠ [] ∧ pat.isPrefixOf (c :: cs)) := by
        rintro ⟨-, hp⟩
        exact h (List.isPrefixOf_iff_prefix.mp hp).isInfix
      have htail : ¬ pat <:+: cs := fun hi =>
        h (hi.trans (List.suffix_cons c cs).isInfix)
      rw [pyReplaceFuel, if_neg hcond, ih cs htail]

theorem pyReplaceFuel_head_match (pat rep : List Char) (fuel : Nat) (t : List Char)
    (hne : pat ≠ []) :
    pyReplaceFuel pat rep (fuel + 1) (pat ++ t) = rep ++ pyReplaceFuel pat rep fuel t := by
  cases pat with
  | nil => exact absurd rfl hne
  | cons p ps =>
    have hpref : (p :: ps).isPrefixOf ((p :: ps) ++ t) = true :=
      List.isPrefixOf_iff_prefix.mpr (List.prefix_append (p :: ps) t)
    rw [List.cons_append, pyReplaceFuel, if_pos ⟨hne, by rwa [← List.cons_append]⟩,
      ← List.cons_append, List.drop_left]

theorem pyLstripSlash_of_head_ne (s : List Char) (h : s.head? ≠ some '/') :
    pyLstripSlash s = s := by
  cases s with
  | nil => rfl
  | cons c cs =>
    have hc : (c == '/') = false := by
      exact beq_eq_false_iff_ne.mpr (fun hc => h (by simp [hc]))
    simp [pyLstripSlash, List.dropWhile, hc]

/-- The subpath computed for a child of the output root equals the child's
relative path, provided the string `output` does not occur again inside
that relative path and the relative path does not start with a slash. -/
theorem s3_output_subdir_mirror (rest : List Char)
    (hno : ¬ ("output".data <:+: rest)) (hhead : rest.head? ≠ some '/') :
    pyLstripSlash (pyReplace "output".data [] ("output/".data ++ rest)) = rest := by
  have hsplit : "output/".data ++ rest = "output".data ++ ('/' :: rest) := rfl
  have hlen : ("output/".data ++ rest).length = (6 + rest.length) + 1 := by
    rw [List.length_append]
    have h7 : ("output/".data).length = 7 := rfl
    rw [h7]; omega
  have hnotinfix : ¬ ("output".data <:+: ('/' :: rest)) := by
    rw [List.infix_cons_iff]
    rintro (hp | hi)
    · obtain ⟨t, ht⟩ := hp
      rw [show "output".data = 'o' :: "utput".data from rfl, List.cons_append] at ht
      injection ht with h1 _
      exact absurd h1 (by decide)
    · exact hno hi
  rw [pyReplace, hlen, hsplit, pyReplaceFuel_head_match _ _ _ _ (by decide), List.nil_append,
    pyReplaceFuel_of_not_infix _ _ _ _ hnotinfix]
  have hstep : pyLstripSlash ('/' :: rest) = pyLstripSlash rest := by
    simp [pyLstripSlash, List.dropWhile]
  rw [hstep, pyLstripSlash_of_head_ne rest hhead]

/-! ### Sample-name lemmas (for claim C5) -/

theorem collectMissing_eq_nil (inp : List (String × String)) (obs : List String) :
    collectMissing inp obs = [] ↔ ∀ p ∈ inp, p.2 ∈ obs := by
  induction inp with
  | nil => simp [collectMissing]
  | cons p rest ih =>
    obtain ⟨ty, name⟩ := p
    by_cases h : name ∈ obs
    · simp [collectMissing, h, ih]
    · simp [collectMissing, h]

/-! ### Credential-resolution lemmas (for claim C6) -/

theorem takeWhile_append_of_all {p : Char → Bool} (a : List Char) (c : Char) (b : List Char)
    (ha : ∀ x ∈ a, p x = true) (hc : p c = false) : (a ++ c :: b).takeWhile p = a := by
  induction a with
  | nil => simp [List.takeWhile, hc]
  | cons x xs ih =>
    simp only [List.cons_append, List.takeWhile]
    rw [ha x (by simp)]
    simp [ih (fun y hy => ha y (by simp [hy]))]

/-! ## Claim theorems -/

/-- Claim C1.  The claim says a failing upload item never short-circuits the
remaining items and that failures are aggregated at the end.  The code
contradicts this (and its own `tasks_failed` aggregation machinery):
`upload_data_outputs` dispatches every item through `execute_command`
without `ignore_errors`, which calls `sys.exit(1)` on the first non-zero
return code.  Evaluated at three items where the second fails: the third is
never attempted, the process dies with exit 1 from inside
`execute_command`, and the final aggregation branch is unreachable — on
every item list that reaches it, `tasks_failed` is provably empty. -/
theorem upload_failure_short_circuits :
    (upload_items_run [("output/purple", 0), ("output/linx", 1), ("output/gridss", 0)]).1
        = ["output/purple", "output/linx"]
    ∧ upload_data_outputs_flow [("output/purple", 0), ("output/linx", 1), ("output/gridss", 0)]
        = .error 1
    ∧ ∀ items : List (String × Int), ((upload_items_run items).2.toOption.getD []) = [] := by
  refine ⟨by decide, by rfl, ?_⟩
  intro items
  induction items with
  | nil => rfl
  | cons item rest ih =>
    obtain ⟨name, rc⟩ := item
    by_cases hrc : rc = 0
    · subst hrc
      simp only [upload_items_run, execute_command]
      simp only [ne_eq, not_true_eq_false, if_false, reduceIte]
      cases hout : (upload_items_run rest).2 with
      | error code => simp [Except.toOption]
      | ok failed =>
        rw [hout] at ih
        simp only [Except.toOption, Option.getD] at ih
        simp [ih, Except.toOption]
    · simp [upload_items_run, execute_command, hrc, Except.toOption]

/-- Claim C2 counterexample.  With subordinate return code 1, `main` exits with
code 1 and never invokes `upload_data_outputs` — contradicting the claim
that publish is always attempted before terminating. -/
theorem nonzero_exit_skips_publish_cex :
    (main_check_and_upload 1 true).publishAttempted = false
    ∧ (main_check_and_upload 1 true).exitCode = some 1 := by
  decide

/-- Claim C2 (amended).  `main` attempts the output upload exactly when the
subordinate pipeline exits zero; any non-zero exit terminates with code 1
without attempting the publish step. -/
theorem main_epilogue_publish_iff_zero :
    ∀ (rc : Int) (cache : Bool),
      (main_check_and_upload rc cache).publishAttempted = decide (rc = 0)
      ∧ (main_check_and_upload rc cache).publishIncludeCache = (decide (rc = 0) && cache)
      ∧ (main_check_and_upload rc cache).exitCode = (if rc = 0 then none else some 1) := by
  intro rc cache
  by_cases h : rc = 0
  · simp [main_check_and_upload, h]
  · simp [main_check_and_upload, h]

/-- Claim C3.  The claim says the Nextflow upload actually excludes the `work/`
cache subtree and that, with the cache option set, the work directory
itself is uploaded last.  The code contradicts this (and its own log
messages and comments) twice: (1) line 636 is a plain — not `f` — string,
so the `--exclude` pattern is the literal text `*{WORK_DIR.name}/*`, which
matches no path under `work/`, while the intended pattern `*work/*` would;
(2) the cache upload of line 648 passes `NEXTFLOW_DIR`, not `WORK_DIR`, as
the source.  Evaluated with an existing Nextflow directory and work
directory and no other children. -/
theorem nextflow_exclude_and_cache_src_eval :
    globMatch workExcludePattern.data "work/trace.txt".data = false
    ∧ globMatch "*work/*".data "work/trace.txt".data = true
    ∧ upload_data_outputs_ops [] true true false "s3://bucket/out/" =
        some [{ cmd := nextflowSyncCmd, src := NEXTFLOW_DIR, dst := "s3://bucket/out/nextflow" }]
    ∧ upload_data_outputs_ops [] true true true "s3://bucket/out/" =
        some [{ cmd := nextflowSyncCmd, src := NEXTFLOW_DIR, dst := "s3://bucket/out/nextflow" },
              { cmd := nextflowSyncCmd, src := NEXTFLOW_DIR,
                dst := "s3://bucket/out/nextflow/work" }]
    ∧ NEXTFLOW_DIR ≠ WORK_DIR := by
  refine ⟨by decide, by decide, by decide, by decide, by decide⟩

/-- Claim C10.  The FORMAT/AD declaration check is applied to the small-variant
VCF only: `main` never issues `check_vcf_ad_field` for the
structural-variant VCF, while the structural-variant VCF still gets its
sample-name check; and `check_vcf_ad_field` itself passes exactly when some
header line carries the `##FORMAT=<ID=AD,` declaration prefix (its absence
is the fatal exit). -/
theorem ad_field_check_smlv_only :
    (∀ b1 b2 : Bool, ValidationStep.checkAdField VcfKind.sv ∉ main_validation_steps b1 b2)
    ∧ (∀ b2 : Bool, ValidationStep.checkAdField VcfKind.smlv ∈ main_validation_steps true b2)
    ∧ (∀ b1 : Bool, ValidationStep.checkSampleNames VcfKind.sv ∈ main_validation_steps b1 true)
    ∧ (∀ vcf_header : List String,
        check_vcf_ad_field vcf_header = false ↔
          ∀ line ∈ vcf_header, ¬ ("##FORMAT=<ID=AD,".data.isPrefixOf line.data = true)) := by
  refine ⟨?_, ?_, ?_, ?_⟩
  · intro b1 b2; cases b1 <;> cases b2 <;> decide
  · intro b2; cases b2 <;> decide
  · intro b1; cases b1 <;> decide
  · intro vcf_header
    simp [check_vcf_ad_field, List.any_eq_false]

/-- Claim C9 counterexample.  The subpath of a child is computed with
`str.replace` — which replaces *every* occurrence of `output`, not just the
leading root — so a child whose own name contains `output` is uploaded to a
mangled destination: `output/my_output.txt` goes to `<dest>my_.txt`, not
`<dest>my_output.txt`, and the remote layout does not mirror the local
tree. -/
theorem output_subdir_not_mirror_cex :
    (uploadChildrenOps "s3://b/o/" [("my_output.txt", false)] none).1 =
      [{ cmd := "cp", src := "output/my_output.txt", dst := "s3://b/o/my_.txt" }]
    ∧ s3_output_subdir "output/my_output.txt" ≠ "my_output.txt" := by
  refine ⟨by decide, by decide⟩

/-- Claim C9 (amended).  After argument processing the output destination ends
with `/`, with a slash appended exactly when absent; each child's remote
destination is the normalized destination directly concatenated with the
computed subpath; and that subpath equals the child's own relative path —
so the remote layout mirrors the local output tree — provided the relative
path does not contain a further occurrence of the string `output` (the
subpath is computed by replace-all of `output` followed by `lstrip('/')`,
which mangles such names) and does not itself start with a slash. -/
theorem output_dir_normalization_and_mirror :
    (∀ s : List Char, (normalize_output_dir s).getLast? = some '/')
    ∧ (∀ s : List Char, s.getLast? = some '/' → normalize_output_dir s = s)
    ∧ (∀ s : List Char, s.getLast? ≠ some '/' → normalize_output_dir s = s ++ ['/'])
    ∧ (∀ (od name : String) (isDir : Bool) (st : Option String),
        OUTPUT_LOCAL_DIR ++ "/" ++ name ≠ NEXTFLOW_DIR →
        (uploadChildrenOps od [(name, isDir)] st).1 =
          [{ cmd := if isDir then "sync" else "cp",
             src := OUTPUT_LOCAL_DIR ++ "/" ++ name,
             dst := od ++ s3_output_subdir (OUTPUT_LOCAL_DIR ++ "/" ++ name) }])
    ∧ (∀ rest : List Char, ¬ ("output".data <:+: rest) → rest.head? ≠ some '/' →
        s3_output_subdir ⟨"output/".data ++ rest⟩ = ⟨rest⟩) := by
  refine ⟨?_, ?_, ?_, ?_, ?_⟩
  · intro s
    by_cases h : s.getLast? = some '/'
    · rw [normalize_output_dir, if_pos h]; exact h
    · rw [normalize_output_dir, if_neg h, List.getLast?_concat]
  · intro s h; rw [normalize_output_dir, if_pos h]
  · intro s h; rw [normalize_output_dir, if_neg h]
  · intro od name isDir st h
    simp [uploadChildrenOps, h]
  · intro rest hno hhead
    have := s3_output_subdir_mirror rest hno hhead
    simpa [s3_output_subdir, OUTPUT_LOCAL_DIR] using congrArg String.mk this

/-- Claim C9 witness: the amended theorem applied at concrete inputs. -/
theorem output_dir_normalization_and_mirror_witness :
    normalize_output_dir "s3://b/o".data = "s3://b/o/".data
    ∧ normalize_output_dir "s3://b/o/".data = "s3://b/o/".data
    ∧ (uploadChildrenOps "s3://b/o/" [("purple", true)] none).1 =
        [{ cmd := "sync", src := "output/purple", dst := "s3://b/o/" ++ s3_output_subdir "output/purple" }]
    ∧ s3_output_subdir ⟨"output/".data ++ "purple".data⟩ = ⟨"purple".data⟩ := by
  refine ⟨?_, ?_, ?_, ?_⟩
  · exact output_dir_normalization_and_mirror.2.2.1 "s3://b/o".data (by decide)
  · exact output_dir_normalization_and_mirror.2.1 "s3://b/o/".data (by decide)
  · exact output_dir_normalization_and_mirror.2.2.2.1 "s3://b/o/" "purple" true none (by decide)
  · exact output_dir_normalization_and_mirror.2.2.2.2 "purple".data (by decide) (by decide)

/-- Claim C5.  Sample-name validation: observed columns exactly `{T, N}` in
either order pass; observed `{T}` alone reports both the missing normal
name and the cardinality mismatch (neither masks the other); zero observed
columns render the `<none found>` marker in the report; and the check
exits fatally exactly when some expected name is missing or the observed
count differs from the expected count. -/
theorem check_vcf_sample_names_spec :
    (∀ T N fp : String,
      (check_vcf_sample_names_core [("tumor", T), ("normal", N)] fp [T, N]).exitsWithError = false
      ∧ (check_vcf_sample_names_core [("tumor", T), ("normal", N)] fp [N, T]).exitsWithError
          = false)
    ∧ (∀ T N fp : String, N ≠ T →
      ("normal: " ++ N) ∈
          (check_vcf_sample_names_core [("tumor", T), ("normal", N)] fp [T]).missing
      ∧ (check_vcf_sample_names_core [("tumor", T), ("normal", N)] fp [T]).cardinalityErrors
          ≠ [])
    ∧ (∀ T N fp : String,
      (check_vcf_sample_names_core [("tumor", T), ("normal", N)] fp []).observedRendered
        = some "<none found>")
    ∧ (∀ (inp : List (String × String)) (fp : String) (obs : List String),
      (check_vcf_sample_names_core inp fp obs).exitsWithError = true ↔
        ((∃ p ∈ inp, p.2 ∉ obs) ∨ obs.length ≠ inp.length))
    ∧ (get_samples_from_vcf_header
          ["##x\n", "#CHROM\tPOS\tID\tREF\tALT\tQUAL\tFILTER\tINFO\tFORMAT\tT1\tN1\n"]
        = ["T1", "N1"]
      ∧ (check_vcf_sample_names [("tumor", "T1"), ("normal", "N1")] "t.vcf"
          ["##x\n", "#CHROM\tPOS\tID\tREF\tALT\tQUAL\tFILTER\tINFO\tFORMAT\tT1\tN1\n"]
          ).exitsWithError = false) := by
  refine ⟨?_, ?_, ?_, ?_, by decide, by decide⟩
  · intro T N fp
    constructor <;> simp [check_vcf_sample_names_core, collectMissing]
  · intro T N fp h
    constructor <;> simp [check_vcf_sample_names_core, collectMissing, h]
  · intro T N fp
    simp [check_vcf_sample_names_core, collectMissing]
  · intro inp fp obs
    have hmiss := collectMissing_eq_nil inp obs
    by_cases hlen : obs.length = inp.length
    · by_cases hm : collectMissing inp obs = []
      · have hforall := hmiss.mp hm
        simp [check_vcf_sample_names_core, hlen, hm]
        exact fun a b hab => hforall (a, b) hab
      · have hex : ∃ p ∈ inp, p.2 ∉ obs := by
          by_contra hno
          push_neg at hno
          exact hm (hmiss.mpr hno)
        simp [check_vcf_sample_names_core, hlen, hm, hex]
    · simp [check_vcf_sample_names_core, hlen]
      left
      by_cases h0 : obs = [] <;> simp [h0]

/-- Claim C5 witness: the theorem applied at `T1`/`N1`. -/
theorem check_vcf_sample_names_spec_witness :
    ("normal: " ++ "N1") ∈
        (check_vcf_sample_names_core [("tumor", "T1"), ("normal", "N1")] "t.vcf" ["T1"]).missing
    ∧ (check_vcf_sample_names_core [("tumor", "T1"), ("normal", "N1")] "t.vcf"
        ["T1"]).cardinalityErrors ≠ [] :=
  check_vcf_sample_names_spec.2.1 "T1" "N1" "t.vcf" (by decide)

/-- Claim C6.  Ancestor-credential resolution for the target key
`a/b/c/file.ext`: when only `a/b/` exists as an addressable directory, the
walk tries `/a/b/c/` and then succeeds at `/a/b/`; the final addressable
path is the issued credential prefix (`<uuid>/a/b/`) plus the suffix
`c/file.ext` of the original key beyond the shared part; and when no
ancestor up to and including the root exists, resolution fails fatally. -/
theorem gds_ancestor_resolution_spec :
    (∀ existsDir : String → Bool,
      existsDir "/a/b/c/" = false → existsDir "/a/b/" = true →
      get_aws_credentials_folder existsDir ["a", "b", "c", "file.ext"] false = some ["a", "b"])
    ∧ (∀ uuid : List Char, uuid ≠ [] → (∀ ch ∈ uuid, isUuidChar ch = true) →
      get_full_aws_key_prefix_for_gds_path "a/b/c/file.ext".data (uuid ++ ('/' :: "a/b/".data))
        = some ((uuid ++ ('/' :: "a/b/".data)) ++ "c/file.ext".data))
    ∧ (∀ existsDir : String → Bool,
      existsDir "/a/b/c/" = false → existsDir "/a/b/" = false →
      existsDir "/a/" = false → existsDir "/" = false →
      get_aws_credentials_folder existsDir ["a", "b", "c", "file.ext"] false = none) := by
  refine ⟨?_, ?_, ?_⟩
  · intro ed h1 h2
    show (ancestorWalk ed ["c", "b", "a"]).map List.reverse = some ["a", "b"]
    rw [ancestorWalk, show renderDirFromRoot (["c", "b", "a"].reverse) = "/a/b/c/" from rfl, h1]
    simp only [Bool.false_eq_true, if_false]
    rw [ancestorWalk, show renderDirFromRoot (["b", "a"].reverse) = "/a/b/" from rfl, h2]
    simp
  · intro uuid hne hall
    have htw : (uuid ++ ('/' :: "a/b/".data)).takeWhile isUuidChar = uuid :=
      takeWhile_append_of_all uuid '/' _ hall (by decide)
    have hemp : uuid.isEmpty = false := by
      cases uuid with
      | nil => exact absurd rfl hne
      | cons x xs => rfl
    rw [get_full_aws_key_prefix_for_gds_path, stripCredUuid]
    rw [htw, hemp]
    simp only [Bool.false_eq_true, if_false]
    rw [List.drop_left]
    rfl
  · intro ed h1 h2 h3 h4
    show (ancestorWalk ed ["c", "b", "a"]).map List.reverse = none
    rw [ancestorWalk, show renderDirFromRoot (["c", "b", "a"].reverse) = "/a/b/c/" from rfl, h1]
    simp only [Bool.false_eq_true, if_false]
    rw [ancestorWalk, show renderDirFromRoot (["b", "a"].reverse) = "/a/b/" from rfl, h2]
    simp only [Bool.false_eq_true, if_false]
    rw [ancestorWalk, show renderDirFromRoot (["a"].reverse) = "/a/" from rfl, h3]
    simp only [Bool.false_eq_true, if_false]
    rw [ancestorWalk, h4]
    simp

/-- Claim C6 witness: the theorem applied to a concrete directory oracle in which
exactly `/a/b/` exists, a concrete issued prefix `u-1/a/b/`, and the
all-missing oracle. -/
theorem gds_ancestor_resolution_spec_witness :
    get_aws_credentials_folder (fun d => d == "/a/b/") ["a", "b", "c", "file.ext"] false
      = some ["a", "b"]
    ∧ get_full_aws_key_prefix_for_gds_path "a/b/c/file.ext".data
        ("u-1".data ++ ('/' :: "a/b/".data))
      = some (("u-1".data ++ ('/' :: "a/b/".data)) ++ "c/file.ext".data)
    ∧ get_aws_credentials_folder (fun _ => false) ["a", "b", "c", "file.ext"] false = none := by
  refine ⟨?_, ?_, ?_⟩
  · exact gds_ancestor_resolution_spec.1 (fun d => d == "/a/b/") (by decide) (by decide)
  · exact gds_ancestor_resolution_spec.2.1 "u-1".data (by decide) (by decide)
  · exact gds_ancestor_resolution_spec.2.2 (fun _ => false) rfl rfl rfl rfl

/-- Claim C7 counterexample.  The stream decoding to `A\n` never contains a
`#CHROM` line, yet the reader fails with the malformed-header error
("Moved past header"), not the end-of-file error — so "every stream without
a column-definition line fails with EofBeforeHeader" is false as stated. -/
theorem vcf_header_eof_claim_cex :
    get_vcf_header (fun s => some s) ["A\n".data] [] = .error .malformedHeader
    ∧ (∀ l ∈ splitKeepEnds "A\n".data, chromMarker.isPrefixOf l = false)
    ∧ VcfReadError.malformedHeader ≠ VcfReadError.eofBeforeHeader := by
  refine ⟨rfl, by decide, by decide⟩

/-- Claim C7 (amended).  For every chunk stream in which each accumulation
that decompresses at all decodes to comment lines only (every line starts
with `#` and none is a `#CHROM` column-definition line), the reader fails
with the specific end-of-file error — including when early accumulations
fail to decompress. -/
theorem vcf_header_eof_before_header (dec : List Char → Option (List Char))
    (chunks : List (List Char)) (dataRaw : List Char)
    (h : ∀ k t, dec (dataRaw ++ ((chunks.take k).flatten)) = some t →
      ∀ l ∈ splitKeepEnds t, goodComment l) :
    get_vcf_header dec chunks dataRaw = .error .eofBeforeHeader :=
  get_vcf_header_eof dec chunks dataRaw h

/-- Claim C7 witness: a two-chunk stream whose first accumulation fails to
decompress and whose full decode is the single comment line `##a\n`. -/
theorem vcf_header_eof_before_header_witness :
    get_vcf_header (fun s => if s = "##a\n".data then some s else none)
      [['#'], "#a\n".data] [] = .error .eofBeforeHeader := by
  refine vcf_header_eof_before_header _ _ _ ?_
  intro k t ht
  dsimp only at ht
  split at ht
  · obtain rfl : "##a\n".data = t := by
      next hx =>
        injection ht with h1
        rw [← h1]; exact hx.symm
    simp only [goodComment]
    decide
  · exact absurd ht (by simp)

/-- Claim C8.  For every chunk stream whose full accumulation decodes to a
text with a non-comment line before any `#CHROM` column-definition line
(and whose partial decodes are byte prefixes of that text, as gzip
guarantees), the reader fails with the malformed-header error — it never
returns a header. -/
theorem vcf_header_malformed_on_bad_line (dec : List Char → Option (List Char))
    (chunks : List (List Char)) (dataRaw full : List Char)
    (hne : chunks ≠ [])
    (hfin : dec (dataRaw ++ chunks.flatten) = some full)
    (hpre : ∀ k t, dec (dataRaw ++ ((chunks.take k).flatten)) = some t → t <+: full)
    (hbad : ∃ pre bad rest, splitKeepEnds full = pre ++ bad :: rest ∧
      (∀ l ∈ pre, goodComment l) ∧ ['#'].isPrefixOf bad = false) :
    get_vcf_header dec chunks dataRaw = .error .malformedHeader :=
  get_vcf_header_malformed dec chunks dataRaw full hne hfin hpre hbad

/-- Claim C8 witness: the single-chunk stream decoding to `##a\nX\n`, whose
second line does not start with `#`. -/
theorem vcf_header_malformed_on_bad_line_witness :
    get_vcf_header (fun s => some s) ["##a\nX\n".data] [] = .error .malformedHeader := by
  refine vcf_header_malformed_on_bad_line _ _ _ "##a\nX\n".data (by simp) rfl ?_ ?_
  · intro k t ht
    cases k with
    | zero =>
      simp only [List.take_zero, List.flatten_nil, List.append_nil, List.nil_append,
        Option.some.injEq] at ht
      rw [← ht]
      exact List.nil_prefix
    | succ k =>
      simp only [List.take_succ_cons, List.take_nil, List.flatten_cons, List.flatten_nil,
        List.append_nil, List.nil_append, Option.some.injEq] at ht
      rw [← ht]
  · refine ⟨[['#', '#', 'a', '\n']], ['X', '\n'], [], by decide, ?_, by decide⟩
    simp only [goodComment]
    decide

/-- Claim C4 counterexample.  Two chunkings of the same byte stream (with
the same decoding) disagree: read in one chunk, the reader returns the full
header; with the chunk boundary inside the `#CHROM` column-definition line,
it returns a header whose last line is the truncated `#CHROM\tP` — the
result is not invariant under chunk boundary placement. -/
theorem vcf_header_chunking_cex :
    "##a\n#CHROM\tP".data ++ "OS\tS1\n".data = "##a\n#CHROM\tPOS\tS1\n".data
    ∧ get_vcf_header (fun s => some s) ["##a\n#CHROM\tPOS\tS1\n".data] []
        = .ok ["##a\n".data, "#CHROM\tPOS\tS1\n".data]
    ∧ get_vcf_header (fun s => some s) ["##a\n#CHROM\tP".data, "OS\tS1\n".data] []
        = .ok ["##a\n".data, "#CHROM\tP".data]
    ∧ ("#CHROM\tP".data : List Char) ≠ "#CHROM\tPOS\tS1\n".data := by
  refine ⟨rfl, rfl, rfl, by decide⟩

/-- Claim C4 (amended).  (1) When the first accumulated chunk decodes to a
text whose scan already finds the column-definition line, the header is
returned from that single chunk read, regardless of the remaining chunks.
(2) When every intermediate accumulation decodes to a newline-terminated
(or empty) byte prefix of the full text, the verdict equals
`headerOfText full`, a function of the decoded text alone; (3) hence any
two such line-aligned chunkings of the same decoded text return identical
results.  (Boundary placements that decode to a prefix ending inside the
column-definition line can return a truncated header — see the
counterexample.) -/
theorem vcf_header_chunking :
    (∀ (dec : List Char → Option (List Char)) (c : List Char) (cs : List (List Char))
        (dataRaw t : List Char) (h : List (List Char)),
      dec (dataRaw ++ c) = some t →
      scanHeaderLines (splitKeepEnds t) = .ok (some h) →
      get_vcf_header dec (c :: cs) dataRaw = .ok h)
    ∧ (∀ (dec : List Char → Option (List Char)) (chunks : List (List Char))
        (dataRaw full : List Char),
      chunks ≠ [] →
      dec (dataRaw ++ chunks.flatten) = some full →
      (∀ k, 0 < k → k < chunks.length →
        ∀ t, dec (dataRaw ++ ((chunks.take k).flatten)) = some t →
          t <+: full ∧ (t = [] ∨ t.getLast? = some '\n')) →
      get_vcf_header dec chunks dataRaw = headerOfText full)
    ∧ (∀ (dec : List Char → Option (List Char)) (A B : List (List Char))
        (dataRaw full : List Char),
      A ≠ [] → B ≠ [] →
      dec (dataRaw ++ A.flatten) = some full →
      dec (dataRaw ++ B.flatten) = some full →
      (∀ k, 0 < k → k < A.length →
        ∀ t, dec (dataRaw ++ ((A.take k).flatten)) = some t →
          t <+: full ∧ (t = [] ∨ t.getLast? = some '\n')) →
      (∀ k, 0 < k → k < B.length →
        ∀ t, dec (dataRaw ++ ((B.take k).flatten)) = some t →
          t <+: full ∧ (t = [] ∨ t.getLast? = some '\n')) →
      get_vcf_header dec A dataRaw = get_vcf_header dec B dataRaw) := by
  refine ⟨?_, ?_, ?_⟩
  · intro dec c cs dataRaw t h hdec hscan
    rw [get_vcf_header_cons_some cs hdec, hscan]
  · exact get_vcf_header_of_aligned
  · intro dec A B dataRaw full hA hB hfinA hfinB hintA hintB
    rw [get_vcf_header_of_aligned dec A dataRaw full hA hfinA hintA,
      get_vcf_header_of_aligned dec B dataRaw full hB hfinB hintB]

/-- Claim C4 witness: part (1) at a single chunk already containing the
header, and part (3) at two line-aligned chunkings of the same text. -/
theorem vcf_header_chunking_witness :
    get_vcf_header (fun s => some s) ["##a\n#CHROM\tS\n".data, "junk".data] []
      = .ok ["##a\n".data, "#CHROM\tS\n".data]
    ∧ get_vcf_header (fun s => some s) ["##a\n#CHROM\tS\n".data] []
        = get_vcf_header (fun s => some s) ["##a\n".data, "#CHROM\tS\n".data] [] := by
  constructor
  · exact vcf_header_chunking.1 (fun s => some s) "##a\n#CHROM\tS\n".data ["junk".data]
      [] "##a\n#CHROM\tS\n".data ["##a\n".data, "#CHROM\tS\n".data] rfl rfl
  · refine vcf_header_chunking.2.2 (fun s => some s)
      ["##a\n#CHROM\tS\n".data] ["##a\n".data, "#CHROM\tS\n".data] []
      "##a\n#CHROM\tS\n".data (by simp) (by simp) rfl rfl ?_ ?_
    · intro k hk hk' t ht
      simp at hk'
      omega
    · intro k hk hk' t ht
      have hk1 : k = 1 := by simp at hk'; omega
      subst hk1
      simp only [List.take_succ_cons, List.take_zero, List.flatten_cons, List.flatten_nil,
        List.append_nil, List.nil_append, Option.some.injEq] at ht
      rw [← ht]
      exact ⟨⟨"#CHROM\tS\n".data, rfl⟩, Or.inr rfl⟩


/-- Claim C10 witness: the AD-field iff applied at a concrete header with
no FORMAT/AD declaration. -/
theorem ad_field_check_smlv_only_witness :
    check_vcf_ad_field ["##fileformat=VCFv4.2"] = false :=
  (ad_field_check_smlv_only.2.2.2 ["##fileformat=VCFv4.2"]).mpr (by decide)

end RunGpl
